import Mathlib

/-
  Verification of the answer-grading core of a quiz bot (src/main.py).

  Embedding conventions:
  * Python floats are modelled as exact rationals; `round(x, 2)` is modelled
    as rounding to the nearest hundredth, ties to even (Python's rounding mode).
  * Python dicts are modelled as ordered association lists with
    insert-or-overwrite semantics (`dIns`, `dCons`) preserving first-insertion
    position, as CPython dicts do.
  * Python strings are `String`; `str.lower`/`str.upper` are modelled on the
    ASCII letters and the Russian Cyrillic letters, the alphabets the bot uses.
  * Explicit question point values are modelled as natural numbers.
-/

attribute [local semireducible] Rat.add Rat.sub Rat.mul Rat.inv

namespace QuizBot

/-- Python whitespace for the purposes of `str.split`, `str.strip` and the
regex class backslash-s, restricted to the ASCII whitespace characters
(space, tab, newline, carriage return, vertical tab, form feed). -/
def isPySpace (c : Char) : Bool :=
  c.toNat = 32 || c.toNat = 9 || c.toNat = 10 || c.toNat = 13
    || c.toNat = 11 || c.toNat = 12

/-- Model of Python `str.lower` on one character: ASCII A-Z and the Russian
Cyrillic capitals (U+0410..U+042F and U+0401) map to their lowercase forms. -/
def pyLowerChar (c : Char) : Char :=
  if 65 ≤ c.toNat ∧ c.toNat ≤ 90 then Char.ofNat (c.toNat + 32)
  else if 1040 ≤ c.toNat ∧ c.toNat ≤ 1071 then Char.ofNat (c.toNat + 32)
  else if c.toNat = 1025 then Char.ofNat 1105
  else c

/-- Model of Python `str.upper` on one character (inverse ranges of
`pyLowerChar`). -/
def pyUpperChar (c : Char) : Char :=
  if 97 ≤ c.toNat ∧ c.toNat ≤ 122 then Char.ofNat (c.toNat - 32)
  else if 1072 ≤ c.toNat ∧ c.toNat ≤ 1103 then Char.ofNat (c.toNat - 32)
  else if c.toNat = 1105 then Char.ofNat 1025
  else c

/-- Python `s.lower()`. -/
def pyLower (s : String) : String := String.mk (s.data.map pyLowerChar)

/-- Python `s.upper()`. -/
def pyUpper (s : String) : String := String.mk (s.data.map pyUpperChar)

/-- Python `s.strip()` on a character list. -/
def stripL (l : List Char) : List Char :=
  ((l.dropWhile isPySpace).reverse.dropWhile isPySpace).reverse

/-- Python `s.strip()`. -/
def pyStrip (s : String) : String := String.mk (stripL s.data)

/-- Helper for whitespace splitting: accumulates the current token (reversed). -/
def splitWsAux : List Char → List Char → List (List Char)
  | [], acc => if acc.isEmpty then [] else [acc.reverse]
  | c :: rest, acc =>
    if isPySpace c then
      if acc.isEmpty then splitWsAux rest [] else acc.reverse :: splitWsAux rest []
    else splitWsAux rest (c :: acc)

/-- Python `s.split()` (no argument): split on runs of whitespace, no empty
tokens. -/
def splitWsL (l : List Char) : List (List Char) := splitWsAux l []

/-- Helper for comma splitting: accumulates the current token (reversed). -/
def splitCommaAux : List Char → List Char → List (List Char)
  | [], acc => [acc.reverse]
  | c :: rest, acc =>
    if c = ',' then acc.reverse :: splitCommaAux rest []
    else splitCommaAux rest (c :: acc)

/-- Python `s.split(",")`: split on every comma, empty tokens kept. -/
def splitCommaL (l : List Char) : List (List Char) := splitCommaAux l []

/-- Character class `[A-Za-z]`. -/
def isAsciiLetterB (c : Char) : Bool :=
  (65 ≤ c.toNat && c.toNat ≤ 90) || (97 ≤ c.toNat && c.toNat ≤ 122)

/-- Character class backslash-d restricted to ASCII `[0-9]`. -/
def isAsciiDigitB (c : Char) : Bool := 48 ≤ c.toNat && c.toNat ≤ 57

/-- Character class `[-=:]`, the optional joiner of a matching pair. -/
def isJoinChar (c : Char) : Bool := c = '-' || c = '=' || c = ':'

/-- Decimal value of a digit run, as `int()` computes it. -/
def digitsVal (l : List Char) : Nat :=
  l.foldl (fun n c => 10 * n + (c.toNat - 48)) 0

/-- Regex `\s*`: skip leading whitespace. -/
def skipWsL (l : List Char) : List Char := l.dropWhile isPySpace

/-- Ordered-dict lookup (`d.get(k)`). -/
def dLookup {α : Type} : List (String × α) → String → Option α
  | [], _ => none
  | p :: rest, k => if p.1 = k then some p.2 else dLookup rest k

/-- Ordered-dict insert-or-overwrite (`d[k] = v`): an existing key keeps its
position and gets the new value, a new key is appended. -/
def dIns {α : Type} : List (String × α) → String → α → List (String × α)
  | [], k, v => [(k, v)]
  | p :: rest, k, v => if p.1 = k then (k, v) :: rest else p :: dIns rest k v

/-- Remove a key from an ordered dict (helper for `dCons`). -/
def removeKey {α : Type} : List (String × α) → String → List (String × α)
  | [], _ => []
  | p :: rest, k => if p.1 = k then removeKey rest k else p :: removeKey rest k

/-- Prepend a dict entry that was inserted before all entries of `m`: later
insertions with the same key overwrite its value but keep its (front)
position, exactly CPython dict behaviour when `k` is inserted first. -/
def dCons {α : Type} (k : String) (v : α) (m : List (String × α)) :
    List (String × α) :=
  match dLookup m k with
  | some w => (k, w) :: removeKey m k
  | none => (k, v) :: m

/-- The separator replacement of `parse_matching_input`:
`s.replace(";", " ").replace(",", " ").replace(":", " ")`. -/
def pairSepToSpace (c : Char) : Char :=
  if c = ';' || c = ',' || c = ':' then ' ' else c

/-- After the leading letter of a matching pair: regex `\s*[-=:]?\s*`.
Backtracking is not needed: if the optional joiner is taken and digits then
fail, the alternative (not taking the joiner) fails at the joiner character
as well. -/
def afterJoin (l : List Char) : List Char :=
  match skipWsL l with
  | j :: rest => if isJoinChar j then skipWsL rest else j :: rest
  | [] => []

/-- Match regex `\s*[-=:]?\s*(\d+)` at the start of `l`, returning the number
and the remainder, as used after a `[A-Za-z]` match. -/
def matchPairAfterLetter (l : List Char) : Option (Int × List Char) :=
  let r2 := afterJoin l
  let ds := r2.takeWhile isAsciiDigitB
  if ds.isEmpty then none
  else some ((digitsVal ds : Int), r2.dropWhile isAsciiDigitB)

/-- Full-token match of regex `^([A-Za-z])\s*[-=:]?\s*(\d+)$`
(`re.match` with end anchor): letter, optional joiner, digits, nothing left. -/
def matchPairFull (l : List Char) : Option (Char × Int) :=
  match l with
  | c :: rest =>
    if isAsciiLetterB c then
      match matchPairAfterLetter rest with
      | some (n, []) => some (pyLowerChar c, n)
      | _ => none
    else none
  | [] => none

/-- Scan of `re.finditer(r"([A-Za-z])\s*[-=:]?\s*(\d+)", p)`: leftmost
non-overlapping matches. The fuel argument bounds recursion; each recursive
call strictly shrinks the list, so fuel equal to the initial length never
runs out. -/
def findPairsFuel : Nat → List Char → List (Char × Int)
  | 0, _ => []
  | _ + 1, [] => []
  | fuel + 1, c :: rest =>
    if isAsciiLetterB c then
      match matchPairAfterLetter rest with
      | some (n, r) => (pyLowerChar c, n) :: findPairsFuel fuel r
      | none => findPairsFuel fuel rest
    else findPairsFuel fuel rest

/-- All embedded letter-number pairs of a token (`re.finditer`). -/
def findPairsL (l : List Char) : List (Char × Int) :=
  findPairsFuel l.length l

/-- Processing of one whitespace-separated token of `parse_matching_input`:
try the full-token regex, otherwise collect all embedded pairs. -/
def procMatchToken (res : List (String × Int)) (p : List Char) :
    List (String × Int) :=
  match matchPairFull p with
  | some (k, n) => dIns res (String.mk [k]) n
  | none =>
    (findPairsL p).foldl (fun r q => dIns r (String.mk [q.1]) q.2) res

/-- Model of `parse_matching_input` (src/main.py lines 137-164): replace
`;`, `,`, `:` by spaces, strip, split on whitespace, and read each token as
a letter-number pair (full match first, embedded pairs as fallback); later
occurrences of a letter overwrite earlier ones. -/
def parse_matching_input (s : String) : List (String × Int) :=
  if s.data.isEmpty then []
  else
    let l := stripL (s.data.map pairSepToSpace)
    (splitWsL l).foldl procMatchToken []

/-- Model of `parse_tf_list_input` (src/main.py lines 166-192): uppercase,
replace `,` `.` `;` by spaces; if any whitespace remains, keep the tokens
equal to T/F/TRUE/FALSE and normalize them to "T"/"F"; otherwise extract the
run of T/F characters. -/
def parse_tf_list_input (s : String) : List String :=
  if s.data.isEmpty then []
  else
    let l := (s.data.map pyUpperChar).map
      (fun c => if c = ',' || c = '.' || c = ';' then ' ' else c)
    if l.any isPySpace then
      ((splitWsL l).filter
        (fun t => decide (t = ['T'] ∨ t = ['F'] ∨
          t = "TRUE".data ∨ t = "FALSE".data))).map
        (fun t => if t = ['T'] ∨ t = "TRUE".data then "T" else "F")
    else
      (l.filter (fun c => c = 'T' || c = 'F')).map (fun c => String.mk [c])

/-- Regex `^[a-z]$`: a single lowercase ASCII letter token. -/
def isSingleLatinTok (t : List Char) : Bool :=
  match t with
  | [c] => 97 ≤ c.toNat && c.toNat ≤ 122
  | _ => false

/-- Token extraction of `parse_ordering_input` (src/main.py lines 194-209):
strip; split on commas if present, else on whitespace if present, else into
single characters; tokens stripped and lowercased, empty ones dropped. -/
def orderTokens (s : String) : List (List Char) :=
  if s.data.isEmpty then []
  else
    let l := stripL s.data
    if l.any (fun c => c = ',') then
      ((splitCommaL l).map (fun t => (stripL t).map pyLowerChar)).filter
        (fun t => !t.isEmpty)
    else if l.any isPySpace then
      ((splitWsL l).map (fun t => (stripL t).map pyLowerChar)).filter
        (fun t => !t.isEmpty)
    else (l.map pyLowerChar).map (fun c => [c])

/-- Model of `parse_ordering_input` (src/main.py lines 194-211): tokens as in
`orderTokens`, then only tokens that are exactly one letter a-z are kept. -/
def parse_ordering_input (s : String) : List String :=
  ((orderTokens s).filter isSingleLatinTok).map (fun t => String.mk t)

/-- Model of `normalize_choice` (src/main.py lines 134-135):
`s.strip().lower()`. -/
def normalize_choice (s : String) : String :=
  String.mk ((stripL s.data).map pyLowerChar)

/-- List prefix test used to model Python substring search. -/
def startsWithL : List Char → List Char → Bool
  | [], _ => true
  | _ :: _, [] => false
  | a :: as, b :: bs => a = b && startsWithL as bs

/-- Python `needle in haystack` substring containment. -/
def isSubstrL (n : List Char) : List Char → Bool
  | [] => n.isEmpty
  | c :: t => startsWithL n (c :: t) || isSubstrL n t

/-- Python `s.startswith(pre)`. -/
def strStartsWith (s pre : String) : Bool := startsWithL pre.data s.data

/-- Executable floor of a rational (`Rat.floor_def` shows it is `Int.floor`). -/
def qfloor (q : ℚ) : ℤ := q.num / (q.den : ℤ)

/-- Rounding of a rational to the nearest integer, ties to even — the
rounding mode of Python's `round`. -/
def rnd2i (q : ℚ) : ℤ :=
  if q - qfloor q < 1/2 then qfloor q
  else if 1/2 < q - qfloor q then qfloor q + 1
  else if qfloor q % 2 = 0 then qfloor q else qfloor q + 1

/-- Model of Python `round(q, 2)`: round to the nearest hundredth, ties to
even. -/
def round2 (q : ℚ) : ℚ := (rnd2i (100 * q) : ℚ) / 100

/-- A question of a test definition. The JSON `answer` field is represented
by the field matching the question's type: `answerStr` for single choice,
`answerMap` for matching, `answerList` for tf_list/ordering. Absent JSON keys
are the defaults. -/
structure Question where
  id : String
  type : String
  points : Option Nat := none
  answerStr : String := ""
  answerMap : List (String × Int) := []
  answerList : List String := []
  items : List String := []
  options : List String := []
  keywords : List String := []
deriving DecidableEq

/-- A test definition: id, title, ordered questions. -/
structure Test where
  id : String := ""
  title : String := ""
  questions : List Question
deriving DecidableEq

/-- Diagnostic detail dict recorded per question by `grade_answers`. -/
inductive Detail where
  | single (student correct : String) (score : ℚ)
  | matching (studentMap correctMap : List (String × Int))
      (matchedPairs totalPairs : ℕ) (score : ℚ)
  | tfList (student correct : List String) (matched total : ℕ) (score : ℚ)
  | ordering (student correct : List String) (matched total : ℕ) (score : ℚ)
  | freeText (qtype : String) (student : String)
      (keywordsFound keywordsTotal : ℕ) (autoScore : ℚ)
  | unknown (qtype : String) (student : String) (score : ℚ)
deriving DecidableEq

/-- Model of `question_max_points` (src/main.py lines 257-271). -/
def question_max_points (q : Question) : Nat :=
  match q.points with
  | some p => p
  | none =>
    if q.type = "single" then 1
    else if q.type = "matching" then q.answerMap.length
    else if q.type = "tf_list" then q.items.length
    else if q.type = "ordering" then q.options.length
    else if strStartsWith q.type "free_text" then 2
    else 1

/-- The dict comprehension lowering the keys of a matching answer key:
`{k.lower(): int(v) for k, v in answer.items()}`. -/
def lowerKeysMap (m : List (String × Int)) : List (String × Int) :=
  m.foldl (fun acc p => dIns acc (pyLower p.1) p.2) []

/-- Positional match count of the tf_list/ordering loops: position `i` of the
expected list counts iff the student list has an `i`-th element equal to it;
positions past the end of the student list count as wrong. -/
def countPosMatches : List String → List String → Nat
  | c :: cs, p :: ps => (if p = c then 1 else 0) + countPosMatches cs ps
  | _, _ => 0

/-- Number of (already lowercased) keywords found in the student answer by
case-insensitive substring search (`kw in student_ans.lower()`). -/
def kwFoundCount (keywords : List String) (ans : String) : Nat :=
  (keywords.filter (fun kw => isSubstrL kw.data (pyLower ans).data)).length

/-- Per-question body of the `grade_answers` loop (src/main.py lines
292-359): returns the raw (pre-rounding) score, the manual-review flag
contribution, and the diagnostic detail. -/
def gradeQuestion (q : Question) (ans : String) (pts : Nat) :
    ℚ × Bool × Detail :=
  if q.type = "single" then
    let correct := normalize_choice q.answerStr
    let got := normalize_choice ans
    let score : ℚ := if got = correct then (pts : ℚ) else 0
    (score, false, Detail.single got correct score)
  else if q.type = "matching" then
    let cmap := lowerKeysMap q.answerMap
    let smap := parse_matching_input ans
    let matched := (cmap.filter (fun p => decide (dLookup smap p.1 = some p.2))).length
    let score : ℚ := (matched : ℚ) * ((pts : ℚ) / ((max 1 cmap.length : ℕ) : ℚ))
    (score, false, Detail.matching smap cmap matched cmap.length (round2 score))
  else if q.type = "tf_list" then
    let correct := q.answerList.map pyUpper
    let parts := parse_tf_list_input ans
    let matched := countPosMatches correct parts
    let score : ℚ := (matched : ℚ) * ((pts : ℚ) / ((max 1 correct.length : ℕ) : ℚ))
    (score, false, Detail.tfList parts correct matched correct.length (round2 score))
  else if q.type = "ordering" then
    let correct := q.answerList.map pyLower
    let parts := parse_ordering_input ans
    let matched := countPosMatches correct parts
    let score : ℚ := (matched : ℚ) * ((pts : ℚ) / ((max 1 correct.length : ℕ) : ℚ))
    (score, false, Detail.ordering parts correct matched correct.length (round2 score))
  else if strStartsWith q.type "free_text" then
    let keywords := q.keywords.map pyLower
    let active : Bool := !(stripL ans.data).isEmpty && !keywords.isEmpty
    let found := if active then kwFoundCount keywords ans else 0
    let score : ℚ :=
      if active then
        round2 (min (pts : ℚ) ((pts : ℚ) * (found : ℚ) / (keywords.length : ℚ)))
      else 0
    (score, true, Detail.freeText q.type ans found keywords.length score)
  else (0, false, Detail.unknown q.type ans 0)

/-- Accumulator state of the `grade_answers` loop. -/
structure Agg where
  total : ℚ
  maxTotal : ℚ
  autoScore : ℚ
  manualNeeded : Bool
  perQ : List (String × ℚ)
  details : List (String × Detail)
deriving DecidableEq

/-- Python `answers.get(qid, "")`. -/
def ansLookup (answers : List (String × String)) (k : String) : String :=
  (dLookup answers k).getD ""

/-- The `grade_answers` loop over the question list: per question the raw
score is rounded to 2 decimals and accumulated into both totals, the maximum
points into `maxTotal`, and the per-question score/detail dicts are built in
question order. -/
def gradeCore (answers : List (String × String)) : List Question → Agg
  | [] => ⟨0, 0, 0, false, [], []⟩
  | q :: qs =>
    let a := gradeCore answers qs
    let pts := question_max_points q
    let g := gradeQuestion q (ansLookup answers q.id) pts
    let s := round2 g.1
    ⟨s + a.total, (pts : ℚ) + a.maxTotal, s + a.autoScore,
      g.2.1 || a.manualNeeded, dCons q.id s a.perQ, dCons q.id g.2.2 a.details⟩

/-- The grading result dict of `grade_answers` (src/main.py lines 368-375). -/
structure GradeResult where
  score : ℚ
  max_score : ℚ
  auto_score : ℚ
  manual_needed : Bool
  per_q_scores : List (String × ℚ)
  details : List (String × Detail)
deriving DecidableEq

/-- Model of `grade_answers` (src/main.py lines 273-375). -/
def grade_answers (test : Test) (answers : List (String × String)) :
    GradeResult :=
  let a := gradeCore answers test.questions
  ⟨round2 a.total, round2 a.maxTotal, round2 a.autoScore, a.manualNeeded,
    a.perQ, a.details⟩

/-- The free-text auto score exactly as the specification sentence words it:
if the question declares a non-empty keyword list and the student answer is a
non-empty STRING (no trimming), the score is
`min(pts, pts * found / total)` rounded to 2 decimals, else 0. Stated from
the spec's words to compare against the implementation. -/
def claimedFreeTextScore (q : Question) (ans : String) (pts : Nat) : ℚ :=
  let kws := q.keywords.map pyLower
  if q.keywords ≠ [] ∧ ans ≠ "" then
    round2 (min (pts : ℚ)
      ((pts : ℚ) * (kwFoundCount kws ans : ℚ) / (kws.length : ℚ)))
  else 0

/-- Cyrillic letter (Russian alphabet block А-Я, а-я, Ё, ё) — the spec's
example of a non-Latin alphabetic character. -/
def isCyrLetterB (c : Char) : Bool :=
  (1040 ≤ c.toNat && c.toNat ≤ 1103) || c.toNat = 1025 || c.toNat = 1105

/-- Fixture: the single-choice question of the spec's end-to-end scenario. -/
def qSingle1 : Question :=
  { id := "q1", type := "single", answerStr := "a", options := ["Paris", "London"] }

/-- Fixture: one-question test around `qSingle1`. -/
def testSingle1 : Test := { questions := [qSingle1] }

/-- Fixture: the student answered "a" on `q1`. -/
def ansSingle1 : List (String × String) := [("q1", "a")]

/-- Fixture: free-text question with no keywords configured. -/
def qFree1 : Question := { id := "q2", type := "free_text" }

/-- Fixture: one-question test around `qFree1`. -/
def testFree1 : Test := { questions := [qFree1] }

/-- Fixture: free-text question whose only keyword is a single space, used to
separate "non-empty string" from "non-empty after strip". -/
def qFreeWs : Question := { id := "qx", type := "free_text", keywords := [" "] }

/-- Fixture: one-question test around `qFreeWs`. -/
def testFreeWs : Test := { questions := [qFreeWs] }

/-- Fixture: the student answer to `qx` is a single space — a non-empty
string that strips to empty. -/
def ansFreeWs : List (String × String) := [("qx", " ")]

/-- Fixture: free-text question of the spec's keyword scenario. -/
def qFreeKw : Question :=
  { id := "q3", type := "free_text", keywords := ["mitosis", "cell"] }

/-- Fixture: one-question test around `qFreeKw`. -/
def testFreeKw : Test := { questions := [qFreeKw] }

/-- Fixture: student answer containing both keywords. -/
def ansFreeKw : List (String × String) :=
  [("q3", "the process of mitosis splits the cell")]

/-- Fixture: tf_list question of the spec's end-to-end scenario (three items,
expected T F T). -/
def qTf1 : Question :=
  { id := "q4", type := "tf_list", answerList := ["T", "F", "T"],
    items := ["s1", "s2", "s3"] }

/-- Fixture: one-question test around `qTf1`. -/
def testTf1 : Test := { questions := [qTf1] }

/-- Fixture: the student typed "TFF". -/
def ansTf1 : List (String × String) := [("q4", "TFF")]

/-- Fixture: matching question whose answer key has zero pairs. -/
def qMatch0 : Question := { id := "q5", type := "matching" }

/-- Fixture: one-question test around `qMatch0`. -/
def testMatch0 : Test := { questions := [qMatch0] }

/-- Fixture: a question with an unrecognized type tag and no points field. -/
def qUnknown1 : Question := { id := "q6", type := "mystery" }

/-- Fixture: test with one single-choice question and one unknown-type
question. -/
def testUnknown1 : Test := { questions := [qSingle1, qUnknown1] }

/-- Fixture: ordering question used for the non-Latin input claim. -/
def qOrd1 : Question :=
  { id := "q7", type := "ordering", answerList := ["a", "b"],
    options := ["x", "y"] }

/-- Fixture: one-question test around `qOrd1`. -/
def testOrd1 : Test := { questions := [qOrd1] }

/-- Fixture: the student answered the ordering question in Cyrillic letters
and a digit. -/
def ansOrd1 : List (String × String) := [("q7", "аб1")]

/-- A successful dict lookup returns an entry of the list. -/
theorem dLookup_mem {α : Type} {m : List (String × α)} {k : String} {v : α}
    (h : dLookup m k = some v) : (k, v) ∈ m := by
  induction m with
  | nil => simp [dLookup] at h
  | cons p rest ih =>
    by_cases he : p.1 = k
    · simp only [dLookup, if_pos he] at h
      injection h with h2
      subst he
      subst h2
      exact List.mem_cons_self _ _
    · simp only [dLookup, if_neg he] at h
      exact List.mem_cons_of_mem _ (ih h)

/-- Removing a key only drops entries. -/
theorem mem_removeKey {α : Type} {m : List (String × α)} {k : String}
    {p : String × α} (h : p ∈ removeKey m k) : p ∈ m := by
  induction m with
  | nil => simp [removeKey] at h
  | cons q rest ih =>
    simp only [removeKey] at h
    split at h
    · exact List.mem_cons_of_mem _ (ih h)
    · rcases List.mem_cons.mp h with h1 | h1
      · exact h1 ▸ List.mem_cons_self _ _
      · exact List.mem_cons_of_mem _ (ih h1)

/-- Entries of `dCons k v m` are the new entry or entries of `m`. -/
theorem mem_dCons {α : Type} {m : List (String × α)} {k : String} {v : α}
    {p : String × α} (h : p ∈ dCons k v m) : p = (k, v) ∨ p ∈ m := by
  unfold dCons at h
  cases hl : dLookup m k with
  | some w =>
    rw [hl] at h
    rcases List.mem_cons.mp h with h1 | h1
    · exact Or.inr (h1 ▸ dLookup_mem hl)
    · exact Or.inr (mem_removeKey h1)
  | none =>
    rw [hl] at h
    rcases List.mem_cons.mp h with h1 | h1
    · exact Or.inl h1
    · exact Or.inr h1

/-- When the key is fresh, `dCons` is a plain cons. -/
theorem dCons_of_lookup_none {α : Type} {m : List (String × α)} {k : String}
    (v : α) (h : dLookup m k = none) : dCons k v m = (k, v) :: m := by
  simp [dCons, h]

/-- A key absent from all entries is not found. -/
theorem dLookup_eq_none {α : Type} {m : List (String × α)} {k : String}
    (h : ∀ p ∈ m, p.1 ≠ k) : dLookup m k = none := by
  induction m with
  | nil => rfl
  | cons p rest ih =>
    simp only [dLookup]
    rw [if_neg (h p (List.mem_cons_self _ _))]
    exact ih fun q hq => h q (List.mem_cons_of_mem _ hq)

/-- The executable floor agrees with the mathematical floor. -/
theorem qfloor_eq_floor (q : ℚ) : qfloor q = ⌊q⌋ := Rat.floor_def.symm

/-- Rounding an integer changes nothing. -/
theorem rnd2i_intCast (m : ℤ) : rnd2i (m : ℚ) = m := by
  unfold rnd2i
  rw [qfloor_eq_floor, Int.floor_intCast]
  have h0 : (m : ℚ) - m = 0 := sub_self _
  rw [h0]
  norm_num

/-- The rounded value is at least the floor. -/
theorem floor_le_rnd2i (q : ℚ) : ⌊q⌋ ≤ rnd2i q := by
  unfold rnd2i
  rw [qfloor_eq_floor]
  split_ifs <;> omega

/-- Rounding never overshoots an integer upper bound. -/
theorem rnd2i_le_of_le {q : ℚ} {m : ℤ} (h : q ≤ (m : ℚ)) : rnd2i q ≤ m := by
  have hf : ⌊q⌋ ≤ m := by
    have := Int.floor_le_floor h
    rwa [Int.floor_intCast] at this
  have hfl : (⌊q⌋ : ℚ) ≤ q := Int.floor_le q
  unfold rnd2i
  rw [qfloor_eq_floor]
  split_ifs with h1 h2 h3
  · exact hf
  · have hh : 1/2 ≤ q - ⌊q⌋ := not_lt.mp h1
    have : (⌊q⌋ : ℚ) < (m : ℚ) := by linarith
    have : ⌊q⌋ < m := by exact_mod_cast this
    omega
  · exact hf
  · have hh : 1/2 ≤ q - ⌊q⌋ := not_lt.mp h1
    have : (⌊q⌋ : ℚ) < (m : ℚ) := by linarith
    have : ⌊q⌋ < m := by exact_mod_cast this
    omega

/-- Rounding never undershoots an integer lower bound. -/
theorem le_rnd2i_of_le {q : ℚ} {m : ℤ} (h : (m : ℚ) ≤ q) : m ≤ rnd2i q :=
  (Int.le_floor.mpr h).trans (floor_le_rnd2i q)

/-- Two-decimal rounding fixes integers. -/
theorem round2_intCast (m : ℤ) : round2 (m : ℚ) = m := by
  unfold round2
  have h : (100 : ℚ) * m = ((100 * m : ℤ) : ℚ) := by push_cast; ring
  rw [h, rnd2i_intCast]
  push_cast
  ring

/-- Two-decimal rounding fixes naturals. -/
theorem round2_natCast (n : ℕ) : round2 (n : ℚ) = n := by
  have := round2_intCast (n : ℤ)
  push_cast at this
  exact this

/-- Two-decimal rounding fixes zero. -/
theorem round2_zero : round2 0 = 0 := by
  have := round2_natCast 0
  simpa using this

/-- Two-decimal rounding preserves nonnegativity. -/
theorem round2_nonneg {q : ℚ} (h : 0 ≤ q) : 0 ≤ round2 q := by
  unfold round2
  have h0 : ((0 : ℤ) : ℚ) ≤ 100 * q := by push_cast; linarith
  have h1 : (0 : ℤ) ≤ rnd2i (100 * q) := le_rnd2i_of_le h0
  have h2 : (0 : ℚ) ≤ (rnd2i (100 * q) : ℚ) := by exact_mod_cast h1
  linarith

/-- Two-decimal rounding preserves an integer upper bound. -/
theorem round2_le_int {q : ℚ} {m : ℤ} (h : q ≤ (m : ℚ)) :
    round2 q ≤ (m : ℚ) := by
  unfold round2
  have h1 : 100 * q ≤ ((100 * m : ℤ) : ℚ) := by push_cast; linarith
  have h2 : rnd2i (100 * q) ≤ 100 * m := rnd2i_le_of_le h1
  have h3 : (rnd2i (100 * q) : ℚ) ≤ ((100 * m : ℤ) : ℚ) := by exact_mod_cast h2
  push_cast at h3
  linarith

/-- Two-decimal rounding preserves a natural upper bound. -/
theorem round2_le_nat {q : ℚ} {n : ℕ} (h : q ≤ (n : ℚ)) :
    round2 q ≤ (n : ℚ) := by
  have h1 : q ≤ (((n : ℤ)) : ℚ) := by push_cast; exact h
  have := round2_le_int h1
  push_cast at this
  exact this

/-- Two-decimal rounding is idempotent. -/
theorem round2_idem (q : ℚ) : round2 (round2 q) = round2 q := by
  unfold round2
  have h : (100 : ℚ) * ((rnd2i (100 * q) : ℚ) / 100) = ((rnd2i (100 * q) : ℤ) : ℚ) := by
    field_simp
  rw [h, rnd2i_intCast]

/-- The positional match count never exceeds the expected length. -/
theorem countPosMatches_le (c : List String) : ∀ p, countPosMatches c p ≤ c.length := by
  induction c with
  | nil => intro p; cases p <;> simp [countPosMatches]
  | cons x cs ih =>
    intro p
    cases p with
    | nil => simp [countPosMatches]
    | cons y ps =>
      have h := ih ps
      rw [show countPosMatches (x :: cs) (y :: ps)
          = (if y = x then 1 else 0) + countPosMatches cs ps from rfl]
      simp only [List.length_cons]
      split_ifs <;> omega

/-- An empty student sequence matches no position. -/
theorem countPosMatches_nil_right (c : List String) : countPosMatches c [] = 0 := by
  cases c <;> rfl

/-- The positional match count equals the number of indices below the
expected length at which the student sequence has an equal element — the
spec's description of positional comparison. -/
theorem countPosMatches_eq_countP (c : List String) : ∀ p : List String,
    countPosMatches c p =
      (List.range c.length).countP (fun i => decide (p.get? i = c.get? i)) := by
  induction c with
  | nil => intro p; cases p <;> simp [countPosMatches]
  | cons x cs ih =>
    intro p
    cases p with
    | nil =>
      rw [countPosMatches_nil_right]
      symm
      rw [List.countP_eq_zero]
      intro i hi
      have hlt : i < (x :: cs).length := List.mem_range.mp hi
      simp only [List.get?_nil, decide_eq_true_eq]
      intro hEq
      have := List.get?_eq_none.mp hEq.symm
      omega
    | cons y ps =>
      rw [show countPosMatches (x :: cs) (y :: ps)
          = (if y = x then 1 else 0) + countPosMatches cs ps from rfl]
      rw [List.length_cons, List.range_succ_eq_map, List.countP_cons,
        List.countP_map, ih ps]
      simp only [Function.comp_def, Nat.succ_eq_add_one, List.get?_cons_succ,
        List.get?_cons_zero, decide_eq_true_eq, Option.some.injEq]
      split_ifs <;> omega

/-- Bounds for a proportional partial score `m * (pts / max 1 N)` with
`m ≤ N`. -/
theorem partialScoreBounds (m N pts : ℕ) (h : m ≤ N) :
    0 ≤ (m : ℚ) * ((pts : ℚ) / ((max 1 N : ℕ) : ℚ)) ∧
      (m : ℚ) * ((pts : ℚ) / ((max 1 N : ℕ) : ℚ)) ≤ (pts : ℚ) := by
  have hM0 : (0 : ℚ) < ((max 1 N : ℕ) : ℚ) := by
    have : 1 ≤ max 1 N := le_max_left 1 N
    exact_mod_cast Nat.lt_of_lt_of_le Nat.zero_lt_one this
  constructor
  · positivity
  · have hm : (m : ℚ) ≤ ((max 1 N : ℕ) : ℚ) := by
      exact_mod_cast h.trans (le_max_right 1 N)
    have hdiv : 0 ≤ (pts : ℚ) / ((max 1 N : ℕ) : ℚ) := by positivity
    have h1 : (m : ℚ) * ((pts : ℚ) / ((max 1 N : ℕ) : ℚ))
        ≤ ((max 1 N : ℕ) : ℚ) * ((pts : ℚ) / ((max 1 N : ℕ) : ℚ)) :=
      mul_le_mul_of_nonneg_right hm hdiv
    have h2 : ((max 1 N : ℕ) : ℚ) * ((pts : ℚ) / ((max 1 N : ℕ) : ℚ)) = (pts : ℚ) := by
      field_simp
    linarith

/-- A free_text-family type tag is none of the four recognized tags. -/
theorem free_text_type_ne (t : String) (h : strStartsWith t "free_text" = true) :
    t ≠ "single" ∧ t ≠ "matching" ∧ t ≠ "tf_list" ∧ t ≠ "ordering" := by
  refine ⟨?_, ?_, ?_, ?_⟩ <;> intro he <;> subst he <;> revert h <;> decide

/-- The per-question manual-review contribution is exactly the
free_text-family type test. -/
theorem gradeQuestion_manual (q : Question) (ans : String) (pts : ℕ) :
    (gradeQuestion q ans pts).2.1 = strStartsWith q.type "free_text" := by
  unfold gradeQuestion
  by_cases h1 : q.type = "single"
  · rw [if_pos h1, h1]
    exact (by decide : false = strStartsWith "single" "free_text")
  rw [if_neg h1]
  by_cases h2 : q.type = "matching"
  · rw [if_pos h2, h2]
    exact (by decide : false = strStartsWith "matching" "free_text")
  rw [if_neg h2]
  by_cases h3 : q.type = "tf_list"
  · rw [if_pos h3, h3]
    exact (by decide : false = strStartsWith "tf_list" "free_text")
  rw [if_neg h3]
  by_cases h4 : q.type = "ordering"
  · rw [if_pos h4, h4]
    exact (by decide : false = strStartsWith "ordering" "free_text")
  rw [if_neg h4]
  by_cases h5 : strStartsWith q.type "free_text" = true
  · rw [if_pos h5]
    exact h5.symm
  · rw [if_neg h5]
    cases hb : strStartsWith q.type "free_text" with
    | false => rfl
    | true => exact absurd hb h5

/-- The raw per-question score is between 0 and the question's maximum. -/
theorem gradeQuestion_score_bounds (q : Question) (ans : String) (pts : ℕ) :
    0 ≤ (gradeQuestion q ans pts).1 ∧ (gradeQuestion q ans pts).1 ≤ (pts : ℚ) := by
  unfold gradeQuestion
  by_cases h1 : q.type = "single"
  · rw [if_pos h1]
    dsimp only
    constructor
    · split_ifs <;> positivity
    · split_ifs
      · exact le_refl _
      · positivity
  rw [if_neg h1]
  by_cases h2 : q.type = "matching"
  · rw [if_pos h2]
    exact partialScoreBounds _ _ _ (List.length_filter_le _ _)
  rw [if_neg h2]
  by_cases h3 : q.type = "tf_list"
  · rw [if_pos h3]
    exact partialScoreBounds _ _ _ (countPosMatches_le _ _)
  rw [if_neg h3]
  by_cases h4 : q.type = "ordering"
  · rw [if_pos h4]
    exact partialScoreBounds _ _ _ (countPosMatches_le _ _)
  rw [if_neg h4]
  by_cases h5 : strStartsWith q.type "free_text" = true
  · rw [if_pos h5]
    dsimp only
    constructor
    · split_ifs with ha
      · apply round2_nonneg
        apply le_min
        · positivity
        · positivity
      · exact le_refl _
    · split_ifs with ha
      · exact round2_le_nat (min_le_left _ _)
      · positivity
  · rw [if_neg h5]
    constructor
    · exact le_refl _
    · positivity

/-- The two accumulators `total` and `auto_score` receive identical updates. -/
theorem gradeCore_total_eq_auto (answers : List (String × String))
    (qs : List Question) :
    (gradeCore answers qs).total = (gradeCore answers qs).autoScore := by
  induction qs with
  | nil => rfl
  | cons q0 rest ih =>
    simp only [gradeCore]
    rw [ih]

/-- Keys of the per-question score dict come from the question ids. -/
theorem gradeCore_perQ_keys (answers : List (String × String))
    (qs : List Question) :
    ∀ p ∈ (gradeCore answers qs).perQ, p.1 ∈ qs.map Question.id := by
  induction qs with
  | nil => intro p hp; simp [gradeCore] at hp
  | cons q0 rest ih =>
    intro p hp
    simp only [gradeCore] at hp
    rcases mem_dCons hp with h | h
    · simp [h]
    · simp only [List.map_cons, List.mem_cons]
      exact Or.inr (ih p h)

/-- Keys of the details dict come from the question ids. -/
theorem gradeCore_details_keys (answers : List (String × String))
    (qs : List Question) :
    ∀ p ∈ (gradeCore answers qs).details, p.1 ∈ qs.map Question.id := by
  induction qs with
  | nil => intro p hp; simp [gradeCore] at hp
  | cons q0 rest ih =>
    intro p hp
    simp only [gradeCore] at hp
    rcases mem_dCons hp with h | h
    · simp [h]
    · simp only [List.map_cons, List.mem_cons]
      exact Or.inr (ih p h)

/-- Under unique question ids, the score and detail dicts map each question
id to that question's rounded score and detail. -/
theorem gradeCore_lookup (answers : List (String × String))
    (qs : List Question) (hn : (qs.map Question.id).Nodup)
    (q : Question) (hq : q ∈ qs) :
    dLookup (gradeCore answers qs).perQ q.id
      = some (round2 (gradeQuestion q (ansLookup answers q.id)
          (question_max_points q)).1)
    ∧ dLookup (gradeCore answers qs).details q.id
      = some (gradeQuestion q (ansLookup answers q.id)
          (question_max_points q)).2.2 := by
  induction qs with
  | nil => cases hq
  | cons q0 rest ih =>
    have hn' : q0.id ∉ List.map Question.id rest ∧ (List.map Question.id rest).Nodup := by
      rw [List.map_cons, List.nodup_cons] at hn
      exact hn
    have hq0 : q0.id ∉ rest.map Question.id := hn'.1
    have hn2 : (rest.map Question.id).Nodup := hn'.2
    have hkP : dLookup (gradeCore answers rest).perQ q0.id = none := by
      cases hl : dLookup (gradeCore answers rest).perQ q0.id with
      | none => rfl
      | some w =>
        exact absurd (gradeCore_perQ_keys answers rest _ (dLookup_mem hl)) hq0
    have hkD : dLookup (gradeCore answers rest).details q0.id = none := by
      cases hl : dLookup (gradeCore answers rest).details q0.id with
      | none => rfl
      | some w =>
        exact absurd (gradeCore_details_keys answers rest _ (dLookup_mem hl)) hq0
    rcases List.mem_cons.mp hq with rfl | hmem
    · simp only [gradeCore]
      rw [dCons_of_lookup_none _ hkP, dCons_of_lookup_none _ hkD]
      constructor
      · simp [dLookup]
      · simp [dLookup]
    · have hne : q0.id ≠ q.id := by
        intro he
        exact hq0 (he ▸ List.mem_map_of_mem Question.id hmem)
      simp only [gradeCore]
      rw [dCons_of_lookup_none _ hkP, dCons_of_lookup_none _ hkD]
      simp only [dLookup, if_neg hne]
      exact ih hn2 hmem

/-- Under unique question ids the accumulated total is the sum of the
per-question dict values. -/
theorem gradeCore_total_eq_sum (answers : List (String × String))
    (qs : List Question) (hn : (qs.map Question.id).Nodup) :
    (gradeCore answers qs).total
      = ((gradeCore answers qs).perQ.map Prod.snd).sum := by
  induction qs with
  | nil => simp [gradeCore]
  | cons q0 rest ih =>
    have hn' : q0.id ∉ List.map Question.id rest ∧ (List.map Question.id rest).Nodup := by
      rw [List.map_cons, List.nodup_cons] at hn
      exact hn
    have hkP : dLookup (gradeCore answers rest).perQ q0.id = none := by
      cases hl : dLookup (gradeCore answers rest).perQ q0.id with
      | none => rfl
      | some w =>
        exact absurd (gradeCore_perQ_keys answers rest _ (dLookup_mem hl)) hn'.1
    simp only [gradeCore]
    rw [dCons_of_lookup_none _ hkP]
    simp only [List.map_cons, List.sum_cons]
    rw [ih hn'.2]

/-- Every value in the per-question score dict is a two-decimal value. -/
theorem gradeCore_perQ_rounded (answers : List (String × String))
    (qs : List Question) :
    ∀ p ∈ (gradeCore answers qs).perQ, round2 p.2 = p.2 := by
  induction qs with
  | nil => intro p hp; simp [gradeCore] at hp
  | cons q0 rest ih =>
    intro p hp
    simp only [gradeCore] at hp
    rcases mem_dCons hp with h | h
    · subst h
      dsimp only
      exact round2_idem _
    · exact ih p h

/-- Every per-question dict entry is the rounded graded score of a question
of the list with the same id. -/
theorem gradeCore_perQ_entry (answers : List (String × String))
    (qs : List Question) :
    ∀ p ∈ (gradeCore answers qs).perQ, ∃ q, q ∈ qs ∧ p.1 = q.id
      ∧ p.2 = round2 (gradeQuestion q (ansLookup answers q.id)
          (question_max_points q)).1 := by
  induction qs with
  | nil => intro p hp; simp [gradeCore] at hp
  | cons q0 rest ih =>
    intro p hp
    simp only [gradeCore] at hp
    rcases mem_dCons hp with h | h
    · exact ⟨q0, List.mem_cons_self _ _, by simp [h]⟩
    · obtain ⟨q, hq, h1, h2⟩ := ih p h
      exact ⟨q, List.mem_cons_of_mem _ hq, h1, h2⟩

/-- The accumulated maximum is the natural-number sum of the per-question
maxima. -/
theorem gradeCore_maxTotal (answers : List (String × String))
    (qs : List Question) :
    (gradeCore answers qs).maxTotal
      = (((qs.map question_max_points).sum : ℕ) : ℚ) := by
  induction qs with
  | nil => simp [gradeCore]
  | cons q0 rest ih =>
    simp only [gradeCore, List.map_cons, List.sum_cons]
    rw [ih]
    push_cast
    ring

/-- The manual-review flag is the disjunction of the per-question free-text
tests, in question order. -/
theorem gradeCore_manual (answers : List (String × String))
    (qs : List Question) :
    (gradeCore answers qs).manualNeeded
      = qs.any (fun q => strStartsWith q.type "free_text") := by
  induction qs with
  | nil => rfl
  | cons q0 rest ih =>
    simp only [gradeCore, List.any_cons]
    rw [ih, gradeQuestion_manual]

/-- The accumulated total never exceeds the accumulated maximum. -/
theorem gradeCore_total_le (answers : List (String × String))
    (qs : List Question) :
    (gradeCore answers qs).total
      ≤ (((qs.map question_max_points).sum : ℕ) : ℚ) := by
  induction qs with
  | nil => simp [gradeCore]
  | cons q0 rest ih =>
    simp only [gradeCore, List.map_cons, List.sum_cons]
    have hb := gradeQuestion_score_bounds q0 (ansLookup answers q0.id)
      (question_max_points q0)
    have hs : round2 (gradeQuestion q0 (ansLookup answers q0.id)
        (question_max_points q0)).1 ≤ (question_max_points q0 : ℚ) :=
      round2_le_nat hb.2
    push_cast
    push_cast at ih
    linarith

/-- Refinement of `gradeCore_total_le` isolating the contribution of one
member question. -/
theorem gradeCore_total_le_of_mem (answers : List (String × String))
    (qs : List Question) (q : Question) (hq : q ∈ qs) :
    (gradeCore answers qs).total
      ≤ (((qs.map question_max_points).sum : ℕ) : ℚ)
        - (question_max_points q : ℚ)
        + round2 (gradeQuestion q (ansLookup answers q.id)
            (question_max_points q)).1 := by
  induction qs with
  | nil => cases hq
  | cons q0 rest ih =>
    rcases List.mem_cons.mp hq with rfl | hmem
    · simp only [gradeCore, List.map_cons, List.sum_cons]
      have h2 := gradeCore_total_le answers rest
      push_cast
      push_cast at h2
      linarith
    · have hb := gradeQuestion_score_bounds q0 (ansLookup answers q0.id)
        (question_max_points q0)
      have hs : round2 (gradeQuestion q0 (ansLookup answers q0.id)
          (question_max_points q0)).1 ≤ (question_max_points q0 : ℚ) :=
        round2_le_nat hb.2
      simp only [gradeCore, List.map_cons, List.sum_cons]
      have h2 := ih hmem
      push_cast
      push_cast at h2
      linarith

/-- A member of a list of naturals is at most the sum. -/
theorem natSumMemLe (l : List ℕ) (a : ℕ) (h : a ∈ l) : a ≤ l.sum := by
  induction l with
  | nil => cases h
  | cons x rest ih =>
    rcases List.mem_cons.mp h with rfl | hm
    · simp
    · have := ih hm
      simp only [List.sum_cons]
      omega

/-- A dict whose values are all two-decimal values is fixed by re-rounding. -/
theorem mapRoundedFix (l : List (String × ℚ))
    (h : ∀ p ∈ l, round2 p.2 = p.2) :
    l.map (fun p => (p.1, round2 p.2)) = l := by
  induction l with
  | nil => rfl
  | cons p rest ih =>
    have hp := h p (List.mem_cons_self _ _)
    simp only [List.map_cons, hp]
    rw [ih fun q hq => h q (List.mem_cons_of_mem _ hq)]

/-- C1: for every test (with the data model's unique question ids) and raw
answer map, the grading result's total `score` and `auto_score` are equal,
and both equal the two-decimal rounding of the sum of the per-question score
map's values; each of those values is itself already rounded to 2 decimals. -/
theorem claim1_totals (test : Test) (answers : List (String × String))
    (hn : (test.questions.map Question.id).Nodup) :
    (grade_answers test answers).score = (grade_answers test answers).auto_score
    ∧ (grade_answers test answers).score
      = round2 (((grade_answers test answers).per_q_scores.map Prod.snd).sum)
    ∧ ((grade_answers test answers).per_q_scores.map (fun p => (p.1, round2 p.2)))
      = (grade_answers test answers).per_q_scores := by
  refine ⟨?_, ?_, ?_⟩
  · show round2 (gradeCore answers test.questions).total
      = round2 (gradeCore answers test.questions).autoScore
    rw [gradeCore_total_eq_auto]
  · show round2 (gradeCore answers test.questions).total
      = round2 (((gradeCore answers test.questions).perQ.map Prod.snd).sum)
    rw [gradeCore_total_eq_sum answers test.questions hn]
  · exact mapRoundedFix _ (gradeCore_perQ_rounded answers test.questions)

/-- Witness for claim 1 at the one-question single-choice test. -/
theorem claim1_totals_witness :
    (testSingle1.questions.map Question.id).Nodup
    ∧ ((grade_answers testSingle1 ansSingle1).score
        = (grade_answers testSingle1 ansSingle1).auto_score
      ∧ (grade_answers testSingle1 ansSingle1).score
        = round2 (((grade_answers testSingle1 ansSingle1).per_q_scores.map
            Prod.snd).sum)
      ∧ ((grade_answers testSingle1 ansSingle1).per_q_scores.map
          (fun p => (p.1, round2 p.2)))
        = (grade_answers testSingle1 ansSingle1).per_q_scores) :=
  ⟨by decide, claim1_totals testSingle1 ansSingle1 (by decide)⟩

/-- C2: every entry of the per-question score map belongs to a question of
the test with the same id, and its score `s` satisfies
`0 ≤ s ≤ question_max_points` and is rounded to 2 decimals. -/
theorem claim2_per_question_bounds (test : Test)
    (answers : List (String × String)) (p : String × ℚ)
    (hp : p ∈ (grade_answers test answers).per_q_scores) :
    ∃ q, q ∈ test.questions ∧ p.1 = q.id ∧ 0 ≤ p.2
      ∧ p.2 ≤ (question_max_points q : ℚ) ∧ round2 p.2 = p.2 := by
  have hp' : p ∈ (gradeCore answers test.questions).perQ := hp
  obtain ⟨q, hq, h1, h2⟩ := gradeCore_perQ_entry answers test.questions p hp'
  have hb := gradeQuestion_score_bounds q (ansLookup answers q.id)
    (question_max_points q)
  refine ⟨q, hq, h1, ?_, ?_, ?_⟩
  · rw [h2]
    exact round2_nonneg hb.1
  · rw [h2]
    exact round2_le_nat hb.2
  · rw [h2]
    exact round2_idem _

/-- Witness for claim 2 at the single-choice test's entry. -/
theorem claim2_per_question_bounds_witness :
    (("q1", (1 : ℚ)) ∈ (grade_answers testSingle1 ansSingle1).per_q_scores)
    ∧ (∃ q, q ∈ testSingle1.questions ∧ ("q1", (1 : ℚ)).1 = q.id
        ∧ 0 ≤ ("q1", (1 : ℚ)).2
        ∧ ("q1", (1 : ℚ)).2 ≤ (question_max_points q : ℚ)
        ∧ round2 ("q1", (1 : ℚ)).2 = ("q1", (1 : ℚ)).2) :=
  ⟨by decide, claim2_per_question_bounds testSingle1 ansSingle1 _ (by decide)⟩

/-- C3: the grading result's `manual_needed` flag is true iff the test has a
question whose type tag starts with "free_text"; keywords and student answers
play no role, and an unrecognized type never sets the flag. -/
theorem claim3_manual_iff (test : Test) (answers : List (String × String)) :
    (grade_answers test answers).manual_needed = true
      ↔ ∃ q ∈ test.questions, strStartsWith q.type "free_text" = true := by
  show (gradeCore answers test.questions).manualNeeded = true ↔ _
  rw [gradeCore_manual]
  simp [List.any_eq_true]

/-- Witness for claim 3: a free_text question with no keywords and no answer
still sets the flag. -/
theorem claim3_manual_iff_witness :
    (grade_answers testFree1 []).manual_needed = true :=
  (claim3_manual_iff testFree1 []).mpr ⟨qFree1, by decide, by decide⟩

/-- C8: the comma-separated, whitespace-separated and contiguous forms of the
same ordering answer parse to the same letter sequence. -/
theorem claim8_ordering_forms :
    parse_ordering_input "d c b a e" = ["d", "c", "b", "a", "e"]
    ∧ parse_ordering_input "dcbae" = ["d", "c", "b", "a", "e"]
    ∧ parse_ordering_input "d,c,b,a,e" = ["d", "c", "b", "a", "e"] := by
  refine ⟨by decide, by decide, by decide⟩

/-- Replacing `:` by a space first commutes with the full separator
replacement. -/
theorem pairSep_colon_char (c : Char) :
    pairSepToSpace (if c = ':' then ' ' else c) = pairSepToSpace c := by
  by_cases h : c = ':'
  · subst h
    decide
  · rw [if_neg h]

/-- C4 counterexample: the claim says the `:`-joined form gives the same
mapping as the `-` form; on the code the two parses differ at the input
"a:2 b:1". -/
theorem claim4_colon_counterexample :
    parse_matching_input "a:2 b:1" ≠ parse_matching_input "a-2 b-1" := by
  decide

/-- C4 amended: `parse_matching_input` treats `:` as a pair separator, not a
joiner — it replaces every `:` by a space before matching, so the `:`-joined
form parses to the empty mapping while the `-`, `=` and empty joiners yield
the full mapping. -/
theorem claim4_colon_amended :
    (∀ s : String, parse_matching_input s
        = parse_matching_input
            (String.mk (s.data.map (fun c => if c = ':' then ' ' else c))))
    ∧ parse_matching_input "a:2 b:1" = []
    ∧ parse_matching_input "a-2 b-1" = [("a", 2), ("b", 1)]
    ∧ parse_matching_input "a=2 b=1" = [("a", 2), ("b", 1)]
    ∧ parse_matching_input "a2 b1" = [("a", 2), ("b", 1)] := by
  refine ⟨?_, by decide, by decide, by decide, by decide⟩
  intro s
  have hmap : (s.data.map (fun c => if c = ':' then ' ' else c)).map pairSepToSpace
      = s.data.map pairSepToSpace := by
    rw [List.map_map]
    induction s.data with
    | nil => rfl
    | cons c rest ih =>
      simp only [List.map_cons, Function.comp_apply, pairSep_colon_char c]
      rw [ih]
  have hempty : (s.data.map (fun c => if c = ':' then ' ' else c)).isEmpty
      = s.data.isEmpty := by
    cases s.data <;> rfl
  show parse_matching_input s = _
  unfold parse_matching_input
  rw [show (String.mk (s.data.map (fun c => if c = ':' then ' ' else c))).data
      = s.data.map (fun c => if c = ':' then ' ' else c) from rfl]
  rw [hempty, hmap]

/-- C5 counterexample: for the free-text question with keyword list [" "]
and the non-empty student answer " ", the spec's formula (claimed score)
gives full points, but the code strips the answer first and scores 0. -/
theorem claim5_keyword_counterexample :
    dLookup (grade_answers testFreeWs ansFreeWs).per_q_scores "qx" = some 0
    ∧ claimedFreeTextScore qFreeWs " " (question_max_points qFreeWs) = 2
    ∧ (0 : ℚ) ≠ 2 := by
  refine ⟨by decide, by decide, by norm_num⟩

/-- Characterization of `gradeQuestion` on a free_text-family question:
score, flag and detail as functions of the activity condition
(non-blank answer and configured keywords). -/
theorem gradeQuestion_free_by_active (q : Question) (ans : String) (pts : ℕ)
    (hft : strStartsWith q.type "free_text" = true) :
    gradeQuestion q ans pts
      = (if (!(stripL ans.data).isEmpty && !(q.keywords.map pyLower).isEmpty) = true
          then round2 (min (pts : ℚ) ((pts : ℚ)
            * (kwFoundCount (q.keywords.map pyLower) ans : ℚ)
            / ((q.keywords.map pyLower).length : ℚ)))
          else 0,
        true,
        Detail.freeText q.type ans
          (if (!(stripL ans.data).isEmpty && !(q.keywords.map pyLower).isEmpty) = true
            then kwFoundCount (q.keywords.map pyLower) ans
            else 0)
          (q.keywords.map pyLower).length
          (if (!(stripL ans.data).isEmpty && !(q.keywords.map pyLower).isEmpty) = true
            then round2 (min (pts : ℚ) ((pts : ℚ)
              * (kwFoundCount (q.keywords.map pyLower) ans : ℚ)
              / ((q.keywords.map pyLower).length : ℚ)))
            else 0)) := by
  obtain ⟨h1, h2, h3, h4⟩ := free_text_type_ne q.type hft
  unfold gradeQuestion
  rw [if_neg h1, if_neg h2, if_neg h3, if_neg h4, if_pos hft]
  dsimp only
  cases hA : (!(stripL ans.data).isEmpty && !(q.keywords.map pyLower).isEmpty) with
  | false => simp [hA]
  | true => simp [hA]

/-- C5 amended: for a free_text-family question, if keywords are configured
and the student answer is non-empty after stripping whitespace, the emitted
score is `min(pts, pts * found / total)` rounded to 2 decimals with `found`
counted by case-insensitive substring search on the unstripped answer;
otherwise the score is 0 and the diagnostic records zero keywords found. -/
theorem claim5_freetext_amended (test : Test)
    (answers : List (String × String))
    (hn : (test.questions.map Question.id).Nodup) (q : Question)
    (hq : q ∈ test.questions)
    (hft : strStartsWith q.type "free_text" = true) :
    (stripL (ansLookup answers q.id).data ≠ [] → q.keywords ≠ [] →
      dLookup (grade_answers test answers).per_q_scores q.id
        = some (round2 (min (question_max_points q : ℚ)
            ((question_max_points q : ℚ)
              * (kwFoundCount (q.keywords.map pyLower) (ansLookup answers q.id) : ℚ)
              / ((q.keywords.map pyLower).length : ℚ)))))
    ∧ (stripL (ansLookup answers q.id).data = [] ∨ q.keywords = [] →
      dLookup (grade_answers test answers).per_q_scores q.id = some 0
      ∧ dLookup (grade_answers test answers).details q.id
        = some (Detail.freeText q.type (ansLookup answers q.id) 0
            (q.keywords.map pyLower).length 0)) := by
  obtain ⟨hP, hD⟩ := gradeCore_lookup answers test.questions hn q hq
  rw [gradeQuestion_free_by_active q (ansLookup answers q.id)
    (question_max_points q) hft] at hP hD
  constructor
  · intro ha hk
    have e1 : (stripL (ansLookup answers q.id).data).isEmpty = false := by
      cases hsa : stripL (ansLookup answers q.id).data with
      | nil => exact absurd hsa ha
      | cons a t => rfl
    have e2 : (q.keywords.map pyLower).isEmpty = false := by
      cases hkk : q.keywords.map pyLower with
      | nil => exact absurd (List.map_eq_nil_iff.mp hkk) hk
      | cons a t => rfl
    have hA : (!(stripL (ansLookup answers q.id).data).isEmpty
        && !(q.keywords.map pyLower).isEmpty) = true := by
      rw [e1, e2]
      rfl
    show dLookup (gradeCore answers test.questions).perQ q.id = _
    rw [hP]
    simp only [hA, if_pos, round2_idem]
  · intro hor
    have hA : (!(stripL (ansLookup answers q.id).data).isEmpty
        && !(q.keywords.map pyLower).isEmpty) = false := by
      rcases hor with ha | hk
      · rw [ha]
        rfl
      · have : q.keywords.map pyLower = [] := by rw [hk]; rfl
        rw [this]
        simp
    constructor
    · show dLookup (gradeCore answers test.questions).perQ q.id = _
      rw [hP]
      simp only [hA, Bool.false_eq_true, if_false, round2_zero]
    · show dLookup (gradeCore answers test.questions).details q.id = _
      rw [hD]
      simp only [hA, Bool.false_eq_true, if_false]

/-- Witness for claim 5 (amended) at the spec's keyword scenario: both
keywords are found and the question scores its full 2 points; the rounded
formula evaluates to 2. -/
theorem claim5_freetext_amended_witness :
    (testFreeKw.questions.map Question.id).Nodup
    ∧ (stripL (ansLookup ansFreeKw qFreeKw.id).data ≠ [])
    ∧ (qFreeKw.keywords ≠ [])
    ∧ dLookup (grade_answers testFreeKw ansFreeKw).per_q_scores qFreeKw.id
      = some (round2 (min (question_max_points qFreeKw : ℚ)
          ((question_max_points qFreeKw : ℚ)
            * (kwFoundCount (qFreeKw.keywords.map pyLower)
                (ansLookup ansFreeKw qFreeKw.id) : ℚ)
            / ((qFreeKw.keywords.map pyLower).length : ℚ)))) :=
  ⟨by decide, by decide, by decide,
    (claim5_freetext_amended testFreeKw ansFreeKw (by decide) qFreeKw
      (by decide) (by decide)).1 (by decide) (by decide)⟩

/-- An empty expected sequence has no positional matches. -/
theorem countPosMatches_nil_left (p : List String) : countPosMatches [] p = 0 := rfl

/-- C6: a tf_list question is scored positionally — the score is the number
of indices `i` below the expected length at which the parsed student
sequence has an `i`-th element equal to the (uppercased) expected one, times
`pts / max 1 N`; indices past the end of the student sequence match nothing. -/
theorem claim6_tf_positional (test : Test) (answers : List (String × String))
    (hn : (test.questions.map Question.id).Nodup) (q : Question)
    (hq : q ∈ test.questions) (ht : q.type = "tf_list") :
    dLookup (grade_answers test answers).per_q_scores q.id
      = some (round2
          ((((List.range q.answerList.length).countP (fun i =>
              decide ((parse_tf_list_input (ansLookup answers q.id)).get? i
                = (q.answerList.map pyUpper).get? i))) : ℚ)
            * ((question_max_points q : ℚ)
              / ((max 1 q.answerList.length : ℕ) : ℚ)))) := by
  obtain ⟨hP, _⟩ := gradeCore_lookup answers test.questions hn q hq
  have hne1 : ¬(q.type = "single") := by rw [ht]; decide
  have hne2 : ¬(q.type = "matching") := by rw [ht]; decide
  have hgq : (gradeQuestion q (ansLookup answers q.id) (question_max_points q)).1
      = (countPosMatches (q.answerList.map pyUpper)
          (parse_tf_list_input (ansLookup answers q.id)) : ℚ)
        * ((question_max_points q : ℚ)
          / ((max 1 (q.answerList.map pyUpper).length : ℕ) : ℚ)) := by
    unfold gradeQuestion
    rw [if_neg hne1, if_neg hne2, if_pos ht]
  show dLookup (gradeCore answers test.questions).perQ q.id = _
  rw [hP, hgq, countPosMatches_eq_countP, List.length_map]

/-- Witness for claim 6 at the spec's scenario: expected T F T, student
"TFF", three items, score 2. -/
theorem claim6_tf_positional_witness :
    dLookup (grade_answers testTf1 ansTf1).per_q_scores qTf1.id = some 2 := by
  have h := claim6_tf_positional testTf1 ansTf1 (by decide) qTf1 (by decide)
    (by decide)
  rw [h]
  decide

/-- C7: an answer key with zero expected items (matching pair map, tf_list
truth list, ordering letter list) cannot crash the (total) grading function;
the question then scores 0, the divisor being floored at 1. -/
theorem claim7_empty_key_safe (test : Test) (answers : List (String × String))
    (hn : (test.questions.map Question.id).Nodup) (q : Question)
    (hq : q ∈ test.questions) :
    (q.type = "matching" → q.answerMap = [] →
      dLookup (grade_answers test answers).per_q_scores q.id = some 0)
    ∧ (q.type = "tf_list" → q.answerList = [] →
      dLookup (grade_answers test answers).per_q_scores q.id = some 0)
    ∧ (q.type = "ordering" → q.answerList = [] →
      dLookup (grade_answers test answers).per_q_scores q.id = some 0) := by
  obtain ⟨hP, _⟩ := gradeCore_lookup answers test.questions hn q hq
  refine ⟨?_, ?_, ?_⟩
  · intro ht hm
    have hne1 : ¬(q.type = "single") := by rw [ht]; decide
    have hgq : (gradeQuestion q (ansLookup answers q.id)
        (question_max_points q)).1 = 0 := by
      unfold gradeQuestion
      rw [if_neg hne1, if_pos ht]
      dsimp only
      rw [hm]
      simp [lowerKeysMap]
    show dLookup (gradeCore answers test.questions).perQ q.id = _
    rw [hP, hgq, round2_zero]
  · intro ht hm
    have hne1 : ¬(q.type = "single") := by rw [ht]; decide
    have hne2 : ¬(q.type = "matching") := by rw [ht]; decide
    have hgq : (gradeQuestion q (ansLookup answers q.id)
        (question_max_points q)).1 = 0 := by
      unfold gradeQuestion
      rw [if_neg hne1, if_neg hne2, if_pos ht]
      dsimp only
      rw [hm]
      simp [countPosMatches_nil_left]
    show dLookup (gradeCore answers test.questions).perQ q.id = _
    rw [hP, hgq, round2_zero]
  · intro ht hm
    have hne1 : ¬(q.type = "single") := by rw [ht]; decide
    have hne2 : ¬(q.type = "matching") := by rw [ht]; decide
    have hne3 : ¬(q.type = "tf_list") := by rw [ht]; decide
    have hgq : (gradeQuestion q (ansLookup answers q.id)
        (question_max_points q)).1 = 0 := by
      unfold gradeQuestion
      rw [if_neg hne1, if_neg hne2, if_neg hne3, if_pos ht]
      dsimp only
      rw [hm]
      simp [countPosMatches_nil_left]
    show dLookup (gradeCore answers test.questions).perQ q.id = _
    rw [hP, hgq, round2_zero]

/-- Witness for claim 7 at a matching question with an empty answer key. -/
theorem claim7_empty_key_safe_witness :
    dLookup (grade_answers testMatch0 []).per_q_scores qMatch0.id = some 0 :=
  (claim7_empty_key_safe testMatch0 [] (by decide) qMatch0 (by decide)).1
    rfl rfl

/-- C9: a question with an unrecognized type tag and no explicit points
field has derived maximum 1, always scores 0, and therefore every grading of
a test containing it has total strictly below the maximum. -/
theorem claim9_unknown_type (test : Test) (answers : List (String × String))
    (hn : (test.questions.map Question.id).Nodup) (q : Question)
    (hq : q ∈ test.questions) (hp : q.points = none)
    (h1 : q.type ≠ "single") (h2 : q.type ≠ "matching")
    (h3 : q.type ≠ "tf_list") (h4 : q.type ≠ "ordering")
    (h5 : strStartsWith q.type "free_text" = false) :
    question_max_points q = 1
    ∧ dLookup (grade_answers test answers).per_q_scores q.id = some 0
    ∧ (grade_answers test answers).score
        < (grade_answers test answers).max_score := by
  have h5' : ¬(strStartsWith q.type "free_text" = true) := by
    rw [h5]
    decide
  have hqmp : question_max_points q = 1 := by
    simp only [question_max_points, hp]
    rw [if_neg h1, if_neg h2, if_neg h3, if_neg h4, if_neg h5']
  have hgq0 : (gradeQuestion q (ansLookup answers q.id)
      (question_max_points q)).1 = 0 := by
    unfold gradeQuestion
    rw [if_neg h1, if_neg h2, if_neg h3, if_neg h4, if_neg h5']
  obtain ⟨hP, _⟩ := gradeCore_lookup answers test.questions hn q hq
  refine ⟨hqmp, ?_, ?_⟩
  · show dLookup (gradeCore answers test.questions).perQ q.id = _
    rw [hP, hgq0, round2_zero]
  · have hNge : 1 ≤ (test.questions.map question_max_points).sum := by
      have hmem : question_max_points q ∈ test.questions.map question_max_points :=
        List.mem_map_of_mem _ hq
      have := natSumMemLe _ _ hmem
      omega
    have h0 := gradeCore_total_le_of_mem answers test.questions q hq
    rw [hgq0, round2_zero, hqmp] at h0
    have hmax : (grade_answers test answers).max_score
        = (((test.questions.map question_max_points).sum : ℕ) : ℚ) := by
      show round2 ((gradeCore answers test.questions).maxTotal) = _
      rw [gradeCore_maxTotal, round2_natCast]
    have hscore : (grade_answers test answers).score
        = round2 ((gradeCore answers test.questions).total) := rfl
    rw [hscore, hmax]
    obtain ⟨S, hS⟩ : ∃ S : ℕ, (test.questions.map question_max_points).sum = S :=
      ⟨_, rfl⟩
    rw [hS] at h0 ⊢
    have hle : round2 ((gradeCore answers test.questions).total)
        ≤ (((S : ℤ) - 1 : ℤ) : ℚ) := by
      apply round2_le_int
      push_cast
      push_cast at h0
      linarith
    push_cast at hle
    linarith

/-- Witness for claim 9 at a two-question test (a correct single-choice
answer plus a question of type "mystery"): score 1 against maximum 2. -/
theorem claim9_unknown_type_witness :
    question_max_points qUnknown1 = 1
    ∧ dLookup (grade_answers testUnknown1 ansSingle1).per_q_scores qUnknown1.id
      = some 0
    ∧ (grade_answers testUnknown1 ansSingle1).score
        < (grade_answers testUnknown1 ansSingle1).max_score :=
  claim9_unknown_type testUnknown1 ansSingle1 (by decide) qUnknown1 (by decide)
    rfl (by decide) (by decide) (by decide) (by decide) (by decide)

/-- Codepoints below the surrogate range survive the `Char.ofNat` round
trip. -/
theorem charToNatOfNat {n : ℕ} (h : n < 55296) : (Char.ofNat n).toNat = n := by
  have hv : n.isValidChar := Or.inl h
  rw [Char.ofNat, dif_pos hv]
  rfl

/-- Codepoint arithmetic of the lowercase map. -/
theorem pyLowerChar_toNat (c : Char) :
    (pyLowerChar c).toNat =
      if 65 ≤ c.toNat ∧ c.toNat ≤ 90 then c.toNat + 32
      else if 1040 ≤ c.toNat ∧ c.toNat ≤ 1071 then c.toNat + 32
      else if c.toNat = 1025 then 1105
      else c.toNat := by
  unfold pyLowerChar
  split_ifs with h1 h2 h3
  · exact charToNatOfNat (by omega)
  · exact charToNatOfNat (by omega)
  · exact charToNatOfNat (by omega)
  · rfl

/-- Codepoint ranges of a Cyrillic letter or an ASCII digit. -/
theorem cyrdigit_toNat (c : Char)
    (h : isCyrLetterB c = true ∨ isAsciiDigitB c = true) :
    (1040 ≤ c.toNat ∧ c.toNat ≤ 1103) ∨ c.toNat = 1025 ∨ c.toNat = 1105
      ∨ (48 ≤ c.toNat ∧ c.toNat ≤ 57) := by
  rcases h with h | h
  · simp only [isCyrLetterB, Bool.or_eq_true, Bool.and_eq_true,
      decide_eq_true_eq] at h
    tauto
  · simp only [isAsciiDigitB, Bool.and_eq_true, decide_eq_true_eq] at h
    tauto

/-- Lowercasing a Cyrillic letter or a digit never produces a token kept by
the `^[a-z]$` filter. -/
theorem cyrDigitLower_not_latin (c : Char)
    (h : isCyrLetterB c = true ∨ isAsciiDigitB c = true) :
    isSingleLatinTok [pyLowerChar c] = false := by
  have hn := cyrdigit_toNat c h
  simp only [isSingleLatinTok]
  rw [pyLowerChar_toNat]
  split_ifs with a1 a2 a3 <;>
    · apply Bool.eq_false_iff.mpr
      intro hc
      simp only [Bool.and_eq_true, decide_eq_true_eq] at hc
      omega

/-- Stripping only removes characters. -/
theorem mem_stripL {c : Char} {l : List Char} (h : c ∈ stripL l) : c ∈ l := by
  unfold stripL at h
  have h1 := List.mem_reverse.mp h
  have h2 := (List.dropWhile_sublist isPySpace).subset h1
  have h3 := List.mem_reverse.mp h2
  exact (List.dropWhile_sublist isPySpace).subset h3

/-- An ordering answer consisting only of Cyrillic letters and digits
parses to the empty sequence. -/
theorem parse_ordering_cyrdigit (s : String)
    (h : ∀ c ∈ s.data, isCyrLetterB c = true ∨ isAsciiDigitB c = true) :
    parse_ordering_input s = [] := by
  unfold parse_ordering_input orderTokens
  by_cases he : s.data.isEmpty = true
  · rw [if_pos he]
    rfl
  rw [if_neg he]
  have hsub : ∀ c ∈ stripL s.data,
      isCyrLetterB c = true ∨ isAsciiDigitB c = true :=
    fun c hc => h c (mem_stripL hc)
  have hcomma : ¬((stripL s.data).any (fun c => c = ',') = true) := by
    intro hA
    obtain ⟨c, hc, hcc⟩ := List.any_eq_true.mp hA
    have he2 : c = ',' := of_decide_eq_true hcc
    subst he2
    rcases hsub _ hc with hx | hx <;> exact absurd hx (by decide)
  rw [if_neg hcomma]
  have hws : ¬((stripL s.data).any isPySpace = true) := by
    intro hA
    obtain ⟨c, hc, hcc⟩ := List.any_eq_true.mp hA
    have hn := cyrdigit_toNat c (hsub _ hc)
    simp only [isPySpace, Bool.or_eq_true, decide_eq_true_eq] at hcc
    omega
  rw [if_neg hws]
  have hfil : ((((stripL s.data).map pyLowerChar).map
      (fun c => [c])).filter isSingleLatinTok) = [] := by
    rw [List.filter_eq_nil_iff]
    intro t ht
    obtain ⟨c', hm1, rfl⟩ := List.mem_map.mp ht
    obtain ⟨c, hm2, rfl⟩ := List.mem_map.mp hm1
    rw [cyrDigitLower_not_latin c (hsub _ hm2)]
    exact Bool.false_ne_true
  rw [hfil]
  rfl

/-- C10: parse_ordering keeps only single ASCII letters a-z after
lowercasing: an input of Cyrillic letters and digits parses to the empty
sequence, and an ordering question answered that way scores 0. -/
theorem claim10_ordering_nonlatin (s : String)
    (h : ∀ c ∈ s.data, isCyrLetterB c = true ∨ isAsciiDigitB c = true) :
    parse_ordering_input s = []
    ∧ ∀ (test : Test) (answers : List (String × String)) (q : Question),
        (test.questions.map Question.id).Nodup → q ∈ test.questions →
        q.type = "ordering" → ansLookup answers q.id = s →
        dLookup (grade_answers test answers).per_q_scores q.id = some 0 := by
  have hparse := parse_ordering_cyrdigit s h
  refine ⟨hparse, ?_⟩
  intro test answers q hn hq ht hans
  obtain ⟨hP, _⟩ := gradeCore_lookup answers test.questions hn q hq
  have hne1 : ¬(q.type = "single") := by rw [ht]; decide
  have hne2 : ¬(q.type = "matching") := by rw [ht]; decide
  have hne3 : ¬(q.type = "tf_list") := by rw [ht]; decide
  have hgq : (gradeQuestion q (ansLookup answers q.id)
      (question_max_points q)).1 = 0 := by
    unfold gradeQuestion
    rw [if_neg hne1, if_neg hne2, if_neg hne3, if_pos ht]
    dsimp only
    rw [hans, hparse, countPosMatches_nil_right]
    simp
  show dLookup (gradeCore answers test.questions).perQ q.id = _
  rw [hP, hgq, round2_zero]

/-- Witness for claim 10 at the Cyrillic-plus-digit input on a two-letter
ordering question. -/
theorem claim10_ordering_nonlatin_witness :
    (∀ c ∈ ("аб1" : String).data,
      isCyrLetterB c = true ∨ isAsciiDigitB c = true)
    ∧ dLookup (grade_answers testOrd1 ansOrd1).per_q_scores qOrd1.id
      = some 0 :=
  ⟨by decide,
    (claim10_ordering_nonlatin "аб1" (by decide)).2 testOrd1 ansOrd1 qOrd1
      (by decide) (by decide) rfl (by decide)⟩

end QuizBot
